import Mathlib

/-!
# Verification of the Autograder feedback pipeline

A shallow embedding, in Lean 4, of the error-classification and
history-aggregation pipeline of `generate_feedback_1.py` (repository
`Autograder_research`), together with proofs of the testable
properties stated in its specification.

Conventions of the embedding:

* Python strings are `String` / `List Char`; slicing `s[:n]` is `take`.
* Python dicts (insertion-ordered, unique keys) are association lists.
* External collaborators (the `re` module, the `json` module, the file
  system, the text-generation service) enter as explicit parameters of
  the embedded functions, constrained only by their documented
  contracts.
* Fallible steps return `Option` / `Except`.
-/

/- ## Message Normalizer: `condense` (generate_feedback_1.py lines 32-36)

   `condense` does
   `" ".join(line.strip() for line in msg.splitlines() if line.strip())`
   followed by `.replace("\\\\", "\\")[:limit]`. -/

/-- The characters Python `str.splitlines` treats as line boundaries:
LF, CR, VT, FF, FS, GS, RS, NEL, LINE SEPARATOR, PARAGRAPH SEPARATOR. -/
def isLineBoundary (c : Char) : Bool :=
  c = '\n' || c = '\r' || c = '\x0b' || c = '\x0c' ||
  c = '\x1c' || c = '\x1d' || c = '\x1e' || c = '\x85' ||
  c = ' ' || c = ' '

/-- Collapse every CRLF pair to a single LF, so that line splitting can
treat each boundary character individually (Python `splitlines` counts
`\r\n` as one boundary). -/
def normCRLF : List Char → List Char
  | [] => []
  | [c] => [c]
  | c :: d :: rest =>
    if c = '\r' && d = '\n' then '\n' :: normCRLF rest
    else c :: normCRLF (d :: rest)

/-- Cut a CRLF-normalised character list at every line boundary; a
trailing boundary yields no final empty line, matching Python
`str.splitlines`.  `acc` holds the current line, reversed. -/
def splitlinesAux : List Char → List Char → List (List Char)
  | [], acc => if acc.isEmpty then [] else [acc.reverse]
  | c :: rest, acc =>
    if isLineBoundary c then acc.reverse :: splitlinesAux rest []
    else splitlinesAux rest (c :: acc)

/-- Python `msg.splitlines()` on a character list. -/
def pySplitlines (l : List Char) : List (List Char) :=
  splitlinesAux (normCRLF l) []

/-- The characters Python `str.strip` removes: the Unicode whitespace
recognised by `str.isspace` (ASCII spacing characters, the line
boundaries, and the Unicode space characters). -/
def pyIsSpace (c : Char) : Bool :=
  c = ' ' || c = '\t' || c = '\x1f' || isLineBoundary c ||
  c = ' ' || c = ' ' || (' ' ≤ c && c ≤ ' ') ||
  c = ' ' || c = ' ' || c = '　'

/-- Python `str.strip()` on a character list. -/
def pyStrip (l : List Char) : List Char :=
  ((l.dropWhile pyIsSpace).reverse.dropWhile pyIsSpace).reverse

/-- Python `str.strip()` on a `String`. -/
def pyStripS (s : String) : String :=
  String.mk (pyStrip s.data)

/-- Python `sep.join(pieces)` for a one-character separator, at the
character-list level. -/
def joinSep (sep : Char) : List (List Char) → List Char
  | [] => []
  | [p] => p
  | p :: q :: rest => p ++ sep :: joinSep sep (q :: rest)

/-- Python `s.replace("\\\\", "\\")`: left-to-right, non-overlapping
replacement of every doubled backslash by a single one. -/
def replaceBB : List Char → List Char
  | [] => []
  | [c] => [c]
  | c :: d :: rest =>
    if c = '\\' && d = '\\' then '\\' :: replaceBB rest
    else c :: replaceBB (d :: rest)

/-- Embeds `condense(msg, limit)` (generate_feedback_1.py lines 32-36):
condenses a raw failure message to a bounded single-line string. -/
def condense (msg : String) (limit : Nat) : String :=
  if msg.isEmpty then "" else
    let pieces := ((pySplitlines msg.data).map pyStrip).filter (fun p => !p.isEmpty)
    let one := joinSep ' ' pieces
    String.mk ((replaceBB one).take limit)

/- ## Error Classifier: `classify_errors_with_bank`
   (generate_feedback_1.py lines 121-150)

   The `re` module is an external collaborator.  `re.search(pat, i,
   re.I | re.S)` raises `re.error` exactly when the pattern does not
   compile, independent of the message; otherwise it reports whether
   the pattern matches.  The embedding carries the two halves of that
   contract as parameters: `validPat` (does the pattern compile) and
   `m` (does a valid pattern match a message). -/

/-- One entry of the error bank: `{category, regex: [pattern, ...]}`. -/
structure BankEntry where
  category : String
  regex : List String
deriving Repr, DecidableEq

/-- The error bank: an insertion-ordered mapping code → entry. -/
abbrev ErrorBank := List (String × BankEntry)

/-- Embeds `re.search(pat, msg, re.I | re.S)` through the collaborator
contract: `Except.error` is `re.error`. -/
def re_search (validPat : String → Bool) (m : String → String → Bool)
    (pat msg : String) : Except Unit Bool :=
  if validPat pat then Except.ok (m pat msg) else Except.error ()

/-- The inner pattern loop of `classify_errors_with_bank` (lines
129-138): try each pattern of one bank entry in order, break on the
first match, and `continue` past any pattern that raises `re.error`. -/
def entryMatches (validPat : String → Bool) (m : String → String → Bool)
    (pats : List String) (msg : String) : Bool :=
  match pats with
  | [] => false
  | p :: rest =>
    match re_search validPat m p msg with
    | Except.error _ => entryMatches validPat m rest msg
    | Except.ok b => if b then true else entryMatches validPat m rest msg

/-- The per-message entry loop of `classify_errors_with_bank` (lines
125-140): scan bank entries in mapping order, skipping the reserved
code, and return the first whose pattern list matches. -/
def classifyMsg (validPat : String → Bool) (m : String → String → Bool)
    (bank : ErrorBank) (msg : String) : Option String :=
  match bank with
  | [] => none
  | (code, entry) :: rest =>
    if code = "UNCLASSIFIED" then classifyMsg validPat m rest msg
    else if entryMatches validPat m entry.regex msg then some code
    else classifyMsg validPat m rest msg

/-- The dedup loop of `classify_errors_with_bank` (lines 145-149):
`seen` is the set of codes already emitted. -/
def dedupFirstAux (seen : List String) : List String → List String
  | [] => []
  | c :: rest =>
    if c ∈ seen then dedupFirstAux seen rest
    else c :: dedupFirstAux (c :: seen) rest

/-- Deduplicate preserving first-occurrence order. -/
def dedupFirst (l : List String) : List String :=
  dedupFirstAux [] l

/-- Embeds `classify_errors_with_bank(raw_messages, bank)` (lines 121-150). -/
def classify_errors_with_bank (validPat : String → Bool)
    (m : String → String → Bool) (raw_messages : List String)
    (bank : ErrorBank) : List String :=
  let codes := raw_messages.map
    (fun i => (classifyMsg validPat m bank i).getD "UNCLASSIFIED")
  let out := dedupFirst codes
  if out.isEmpty then ["UNCLASSIFIED"] else out

/-- The same bank with every non-compiling pattern removed; used to
state that invalid patterns are skipped silently. -/
def pruneBank (validPat : String → Bool) (bank : ErrorBank) : ErrorBank :=
  bank.map (fun p => (p.1, { p.2 with regex := p.2.regex.filter validPat }))

/- ## JSON values and the file system

   The `json` module is an external collaborator: `dumps` serialises a
   value, `loads` parses a text and raises `json.JSONDecodeError`
   (here: `none`) on malformed input.  The file system is a flat
   mapping path → file text. -/

/-- A Python JSON value. -/
inductive Json where
  | null : Json
  | bool (b : Bool) : Json
  | num (n : Int) : Json
  | str (s : String) : Json
  | arr (elems : List Json) : Json
  | obj (fields : List (String × Json)) : Json
deriving Repr

/-- Embeds the check `isinstance(v, dict)`. -/
def Json.isObj : Json → Bool
  | Json.obj _ => true
  | _ => false

/-- Python dict lookup `d.get(k)` on an association list. -/
def alistGet {α : Type} (l : List (String × α)) (k : String) : Option α :=
  match l with
  | [] => none
  | (k2, v) :: rest => if k2 = k then some v else alistGet rest k

/-- Flat file-system state: path → file text. -/
abbrev FS := String → Option String

/-- The file-system operations `save_student_errors` performs. -/
inductive FsOp where
  | write (path content : String) : FsOp
  | rename (src dst : String) : FsOp

/-- Effect of one operation on the file system; `rename` is
`Path.replace`: atomic, overwriting the destination. -/
def applyOp (fs : FS) : FsOp → FS
  | FsOp.write p content => fun q => if q = p then some content else fs q
  | FsOp.rename src dst => fun q =>
    if q = dst then fs src
    else if q = src then none
    else fs q

/-- Run a sequence of file-system operations. -/
def applyOps (ops : List FsOp) (fs : FS) : FS :=
  ops.foldl applyOp fs

/-- The characters of `Path(p).parent`: everything before the last
slash. -/
def dirChars (l : List Char) : List Char :=
  (((l.reverse).dropWhile (fun c => c ≠ '/')).drop 1).reverse

/-- Embeds `Path(p).parent` as a string. -/
def dirOf (p : String) : String :=
  String.mk (dirChars p.data)

/-- The path of the temporary file `NamedTemporaryFile(delete=False,
dir=str(path.parent))` creates: a fresh name `base` inside the parent
directory of `path`. -/
def tmpPath (path base : String) : String :=
  dirOf path ++ "/" ++ base

/-- The operation sequence of `save_student_errors(path, data)` (lines
165-171): write the serialised store to the temporary file, then
`Path(temp_name).replace(path)`.  (`path.parent.mkdir` is a no-op in
the flat file-system model.) -/
def saveOps (dumps : Json → String) (path base : String) (data : Json) :
    List FsOp :=
  [FsOp.write (tmpPath path base) (dumps data),
   FsOp.rename (tmpPath path base) path]

/-- Embeds `save_student_errors(path, data)` (lines 165-171) as a file-system
transformer. -/
def save_student_errors (dumps : Json → String) (base : String) (fs : FS)
    (path : String) (data : Json) : FS :=
  applyOps (saveOps dumps path base data) fs

/-- Embeds `load_student_errors(path)` (lines 152-163): empty mapping when the
file is absent, when `json.loads` raises, or when the parsed value is
not a dict. -/
def load_student_errors (loads : String → Option Json) (fs : FS)
    (path : String) : Json :=
  match fs path with
  | none => Json.obj []
  | some text =>
    match loads text with
    | none => Json.obj []
    | some d => if d.isObj then d else Json.obj []

/- ## Student History Store (generate_feedback_1.py lines 174-197) -/

/-- One history entry `{submission_id, error_codes, feedback}`. -/
structure HistoryEntry where
  submission_id : String
  error_codes : List String
  feedback : String
deriving Repr, DecidableEq

/-- One student record `{full_name, feedback_count, history}`. -/
structure StudentRec where
  full_name : String
  feedback_count : Nat
  history : List HistoryEntry
deriving Repr, DecidableEq

/-- The store: an insertion-ordered mapping full name → record. -/
abbrev StudentStore := List (String × StudentRec)

/-- Python dict assignment `totals[name] = v`: replace the existing
binding, or append a new one. -/
def setStudent (totals : StudentStore) (name : String) (v : StudentRec) :
    StudentStore :=
  match totals with
  | [] => [(name, v)]
  | (k, w) :: rest =>
    if k = name then (k, v) :: rest else (k, w) :: setStudent rest name v

/-- Embeds `record_student_submission(totals, full_name, submission_id,
error_codes, feedback_text)` (lines 174-197): `setdefault` the record,
increment `feedback_count`, append a history entry
(`feedback_text or ""`). -/
def record_student_submission (totals : StudentStore) (full_name : String)
    (submission_id : String) (error_codes : List String)
    (feedback_text : Option String) : StudentStore :=
  let student := (alistGet totals full_name).getD
    { full_name := full_name, feedback_count := 0, history := [] }
  let student :=
    { student with
      feedback_count := student.feedback_count + 1,
      history := student.history ++
        [{ submission_id := submission_id, error_codes := error_codes,
           feedback := feedback_text.getD "" }] }
  setStudent totals full_name student

/-- N successive `record_student_submission` calls for one student. -/
def recordN (totals : StudentStore) (full_name : String)
    (subs : List (String × List String × Option String)) : StudentStore :=
  subs.foldl
    (fun acc s => record_student_submission acc full_name s.1 s.2.1 s.2.2)
    totals

/-- Reads the `feedback_count` of a student, 0 when absent. -/
def storeCount (totals : StudentStore) (name : String) : Nat :=
  ((alistGet totals name).map (fun r => r.feedback_count)).getD 0

/-- History length of a student, 0 when absent. -/
def storeHistLen (totals : StudentStore) (name : String) : Nat :=
  ((alistGet totals name).map (fun r => r.history.length)).getD 0

/- ## History Summarizer: `summarize_history`
   (generate_feedback_1.py lines 214-264) -/

/-- The static code → phrase mapping `HUMANIZE` (lines 214-225). -/
def HUMANIZE : List (String × String) :=
  [("TYPE_NONE", "mixing None with numbers/operations"),
   ("FLOAT_ON_NONE", "calling float() on None"),
   ("OUTPUT_MISMATCH", "output formatting mismatch"),
   ("MATH_OPS_INCORRECT", "incorrect math operations"),
   ("LOOP_NEVER_UPDATES", "loop condition never updates (possible infinite loop)"),
   ("LOOP_BAD_RANGE", "range() bounds/off-by-one"),
   ("FUNC_ARGS_ORDER", "wrong function arguments or order"),
   ("FUNC_MISSING_RETURN", "missing return (returning None)"),
   ("TYPE_MIX_STR_INT", "mixing str and int without casting"),
   ("FILE_PATH_ERROR", "bad file path or missing file")]

/-- Embeds `HUMANIZE.get(c, c)`. -/
def humanizeGet (c : String) : String :=
  (alistGet HUMANIZE c).getD c

/-- All error codes across the whole history, in order: the contents of
the `life` Counter (lines 237-239). -/
def lifeCodes (hist : List HistoryEntry) : List String :=
  (hist.map (fun h => h.error_codes)).flatten

/-- Lifetime count of one code: `life[c]`. -/
def lifeCount (hist : List HistoryEntry) (c : String) : Nat :=
  (lifeCodes hist).count c

/-- Embeds `hist[-window:]`: the last `window` entries; Python slicing makes
`hist[-0:]` the whole list. -/
def lastWindow (hist : List HistoryEntry) (window : Nat) :
    List HistoryEntry :=
  if window = 0 then hist else hist.drop (hist.length - window)

/-- Recent count of one code: entries of the window that contain it,
counted once per entry (`recent.update(set(...))`, lines 242-244). -/
def recentCount (hist : List HistoryEntry) (window : Nat) (c : String) :
    Nat :=
  (lastWindow hist window).countP (fun h => decide (c ∈ h.error_codes))

/-- Membership in the `frequent` set (line 247): lifetime count at
least 2, or recent deduplicated count at least 2. -/
def isFrequent (hist : List HistoryEntry) (window : Nat) (c : String) :
    Bool :=
  decide (2 ≤ lifeCount hist c) || decide (2 ≤ recentCount hist window c)

/-- Sort a list of strings in Python order (codepoint-lexicographic). -/
def sortStrings (l : List String) : List String :=
  l.mergeSort (fun a b => decide (a ≤ b))

/-- Embeds `life.most_common(top_k)`: the distinct codes in first-insertion
order, stably sorted by descending count, truncated to `top_k`. -/
def mostCommon (hist : List HistoryEntry) (top_k : Nat) : List String :=
  ((dedupFirst (lifeCodes hist)).mergeSort
    (fun a b => decide (lifeCount hist b ≤ lifeCount hist a))).take top_k

/-- Embeds `summarize_history(student, now_codes, top_k, window)` (lines
227-264).  `student` is the result of `student_totals.get(full_name,
{})`: `none` models the absent student (the falsy empty dict). -/
def summarize_history (student : Option StudentRec)
    (now_codes : List String) (top_k window : Nat) :
    String × List String :=
  match student with
  | none => ("(no prior feedback)", [])
  | some s =>
    if s.history.isEmpty then ("(no prior feedback)", []) else
      let hist := s.history
      let overlap := sortStrings
        ((dedupFirst now_codes).filter (fun c => isFrequent hist window c))
      let top := (mostCommon hist top_k).map
        (fun c => c ++ "(" ++ toString (lifeCount hist c) ++ ")")
      let lines := [
        "Total prior feedback items: " ++ toString hist.length,
        if top.isEmpty then "Most frequent codes: (none)"
          else "Most frequent codes: " ++ String.intercalate ", " top,
        if now_codes.isEmpty then "Current codes: (none)"
          else "Current codes: " ++ String.intercalate ", " now_codes]
      let lines := if overlap.isEmpty then lines else
        lines ++
        ["Frequent codes also present now: " ++ String.intercalate ", " overlap,
         "Humanized: " ++ String.intercalate "; " (overlap.map humanizeGet)]
      (String.intercalate "\n" lines, overlap)

/- ## Student-code excerpt: `read_student_code_excerpt`
   (generate_feedback_1.py lines 68-86) -/

/-- The accumulation loop of `read_student_code_excerpt`: `files` is
the sorted list of `.py` files as (name, text) pairs (a file whose read
raises contributes empty text), `total` the running character count,
`pieces` the collected chunks, reversed. -/
def excerptLoop (limit : Nat) :
    List (String × String) → Nat → List (List Char) → List (List Char)
  | [], _, pieces => pieces.reverse
  | (name, code) :: rest, total, pieces =>
    let chunk := ("# FILE: " ++ name ++ "\n" ++ code).data
    let chunk := if limit < total + chunk.length
      then chunk.take (limit - total) else chunk
    let total := total + chunk.length
    if limit ≤ total then (chunk :: pieces).reverse
    else excerptLoop limit rest total (chunk :: pieces)

/-- Embeds `read_student_code_excerpt(sub_dir, limit)` (lines 68-86).
`sub_dir = none` models both `None` and a nonexistent directory; `some
files` models an existing directory whose sorted `*.py` globbing yields
`files`.  The result is `("\n".join(pieces)).strip()`. -/
def read_student_code_excerpt (sub_dir : Option (List (String × String)))
    (limit : Nat) : String :=
  match sub_dir with
  | none => ""
  | some files =>
    String.mk (pyStrip (joinSep '\n' (excerptLoop limit files 0 [])))

/- ## Feedback Orchestrator: the per-submission loop of
   `generate_feedback` (generate_feedback_1.py lines 347-434)

   The text-generation collaborator and `json.loads` are parameters.
   The Python local variable `msg` is assigned only inside the `try`
   block; the `except` handler reads it, so its binding state must be
   threaded across loop iterations (`none` = not yet assigned;
   reading it then raises `UnboundLocalError`). -/

/-- One staged feedback record (`results_out` rows). -/
structure FeedbackRecord where
  submission_id : String
  full_name : String
  feedback : String
deriving Repr, DecidableEq

/-- The loop state of `generate_feedback`. -/
structure OrchState where
  results_out : List FeedbackRecord
  student_totals : StudentStore
  msgVar : Option String
deriving Repr, DecidableEq

/-- The uncaught Python exception the loop can raise. -/
inductive PyError where
  | unboundLocal : PyError
deriving Repr, DecidableEq

/-- Truthiness of a JSON value in Python. -/
def jsonFalsy : Json → Bool
  | Json.null => true
  | Json.bool b => !b
  | Json.num n => decide (n = 0)
  | Json.str s => s.isEmpty
  | Json.arr l => l.isEmpty
  | Json.obj l => l.isEmpty

/-- The body of the `try` block after the collaborator call (lines
392-394): `json.loads(text)`, `parsed.get("feedback", [])`,
`fb_list[0].get("message", "").strip() if fb_list else ""`.  `none`
means some step raised (caught by the `except` handler). -/
def extractMsg (loads : String → Option Json) (text : String) :
    Option String :=
  match loads text with
  | none => none
  | some (Json.obj fields) =>
    let fb := (alistGet fields "feedback").getD (Json.arr [])
    if jsonFalsy fb then some "" else
      match fb with
      | Json.arr (first :: _) =>
        match first with
        | Json.obj f2 =>
          match (alistGet f2 "message").getD (Json.str "") with
          | Json.str msg => some (pyStripS msg)
          | _ => none
        | _ => none
      | _ => none
  | some _ => none

/-- One submission of the batch: its id and the failing-test outputs
fetched for it. -/
structure SubmissionInput where
  submission_id : String
  outputs : List String
deriving Repr, DecidableEq

/-- The body of the per-submission loop (lines 349-432).  `nameMap`
models `name_map.get(sid, {}).get("full_name")`; `response` the
text-generation collaborator output for the submission.  The `except`
branch (lines 416-429) reads `msg` without assigning it and never calls
`record_student_submission`. -/
def processSubmission (validPat : String → Bool)
    (m : String → String → Bool) (bank : ErrorBank)
    (nameMap : String → Option String) (loads : String → Option Json)
    (response : String → String) (st : OrchState)
    (sub : SubmissionInput) : Except PyError OrchState :=
  let condensed := (sub.outputs.take 50).map (fun o => condense o 400)
  let raw_errors := condensed
  let error_codes := classify_errors_with_bank validPat m raw_errors bank
  let full_name := pyStripS ((nameMap sub.submission_id).getD "")
  let text := response sub.submission_id
  match extractMsg loads text with
  | some msg =>
    let full_name := (nameMap sub.submission_id).getD ""
    let totals := record_student_submission st.student_totals full_name
      sub.submission_id error_codes (if msg.isEmpty then none else some msg)
    let results := if msg.isEmpty then st.results_out else
      st.results_out ++ [⟨sub.submission_id, full_name, msg⟩]
    Except.ok ⟨results, totals, some msg⟩
  | none =>
    match st.msgVar with
    | none => Except.error PyError.unboundLocal
    | some msg =>
      let results := if msg.isEmpty then st.results_out else
        st.results_out ++ [⟨sub.submission_id, full_name, msg⟩]
      Except.ok ⟨results, st.student_totals, some msg⟩

/-- The whole batch loop, threading the loop state; the final store is
what `save_student_errors` then persists.  An uncaught exception aborts
the batch before anything is saved. -/
def runBatch (validPat : String → Bool) (m : String → String → Bool)
    (bank : ErrorBank) (nameMap : String → Option String)
    (loads : String → Option Json) (response : String → String)
    (totals0 : StudentStore) (subs : List SubmissionInput) :
    Except PyError (List FeedbackRecord × StudentStore) :=
  go subs ⟨[], totals0, none⟩
where
  go : List SubmissionInput → OrchState →
      Except PyError (List FeedbackRecord × StudentStore)
    | [], st => Except.ok (st.results_out, st.student_totals)
    | sub :: rest, st =>
      match processSubmission validPat m bank nameMap loads response st sub with
      | Except.error e => Except.error e
      | Except.ok st2 => go rest st2

/-! ## Lemmas and verified properties -/

/- ### The Message Normalizer -/

theorem splitlinesAux_no_boundary (l acc : List Char)
    (hacc : ∀ c ∈ acc, isLineBoundary c = false) :
    ∀ piece ∈ splitlinesAux l acc, ∀ c ∈ piece, isLineBoundary c = false := by
  induction l generalizing acc with
  | nil =>
    intro piece hp
    simp only [splitlinesAux] at hp
    split at hp
    · simp at hp
    · simp only [List.mem_singleton] at hp
      subst hp
      intro c hc
      exact hacc c (List.mem_reverse.mp hc)
  | cons c rest ih =>
    intro piece hp
    simp only [splitlinesAux] at hp
    split at hp
    · rw [List.mem_cons] at hp
      rcases hp with hp | hp
      · subst hp; intro d hd; exact hacc d (List.mem_reverse.mp hd)
      · exact ih [] (by simp) piece hp
    · rename_i hb
      refine ih (c :: acc) ?_ piece hp
      intro d hd
      rw [List.mem_cons] at hd
      rcases hd with hd | hd
      · subst hd
        exact Bool.not_eq_true _ ▸ (by simpa using hb)
      · exact hacc d hd

theorem pyStrip_subset (l : List Char) : ∀ c ∈ pyStrip l, c ∈ l := by
  intro c hc
  unfold pyStrip at hc
  rw [List.mem_reverse] at hc
  have h1 := (List.dropWhile_sublist (l := (l.dropWhile pyIsSpace).reverse) pyIsSpace).mem hc
  rw [List.mem_reverse] at h1
  exact (List.dropWhile_sublist pyIsSpace).mem h1

theorem joinSep_mem (sep : Char) (ps : List (List Char)) :
    ∀ c ∈ joinSep sep ps, c = sep ∨ ∃ p ∈ ps, c ∈ p := by
  induction ps using joinSep.induct sep with
  | case1 => simp [joinSep]
  | case2 p => intro c hc; right; exact ⟨p, by simp, by simpa [joinSep] using hc⟩
  | case3 p q rest ih =>
    intro c hc
    simp only [joinSep] at hc
    rw [List.mem_append, List.mem_cons] at hc
    rcases hc with hc | hc | hc
    · right; exact ⟨p, by simp, hc⟩
    · left; exact hc
    · rcases ih c hc with h | ⟨r, hr, hcr⟩
      · left; exact h
      · right; exact ⟨r, by simp [List.mem_cons] at hr ⊢; tauto, hcr⟩

theorem replaceBB_mem (l : List Char) : ∀ c ∈ replaceBB l, c ∈ l := by
  induction l using replaceBB.induct with
  | case1 => simp [replaceBB]
  | case2 c => simp [replaceBB]
  | case3 c d rest h ih =>
    intro e he
    simp only [replaceBB] at he
    rw [if_pos h, List.mem_cons] at he
    rcases he with he | he
    · subst he
      rw [Bool.and_eq_true, decide_eq_true_eq, decide_eq_true_eq] at h
      simp [h.1]
    · simp only [List.mem_cons]
      right; right; exact ih e he
  | case4 c d rest h ih =>
    intro e he
    simp only [replaceBB] at he
    rw [if_neg h, List.mem_cons] at he
    rcases he with he | he
    · simp [he]
    · have := ih e he
      simp only [List.mem_cons] at this ⊢
      tauto

/-- C7.  For every input string and every limit, the output of
`condense` has length at most the limit and contains no newline (line
boundary) characters; empty input yields the empty string. -/
theorem condense_bounded_single_line (msg : String) (limit : Nat) :
    (condense msg limit).length ≤ limit ∧
    (∀ c ∈ (condense msg limit).data, isLineBoundary c = false) ∧
    condense "" limit = "" := by
  refine ⟨?_, ?_, rfl⟩
  · unfold condense
    split
    · simp [String.length]
    · exact List.length_take_le _ _
  · intro c hc
    unfold condense at hc
    split at hc
    · simp [String.data] at hc
    · have h1 : c ∈ replaceBB (joinSep ' '
          (((pySplitlines msg.data).map pyStrip).filter (fun p => !p.isEmpty))) :=
        (List.take_sublist _ _).mem hc
      have h2 := replaceBB_mem _ c h1
      rcases joinSep_mem _ _ c h2 with h3 | ⟨p, hp, hcp⟩
      · subst h3; rfl
      · rw [List.mem_filter] at hp
        rcases List.mem_map.mp hp.1 with ⟨q, hq, hpq⟩
        subst hpq
        have hcq := pyStrip_subset q c hcp
        exact splitlinesAux_no_boundary (normCRLF msg.data) [] (by simp) q hq c hcq

/- ### The Error Classifier -/

theorem dedupFirstAux_mem (l seen : List String) (c : String) :
    c ∈ dedupFirstAux seen l ↔ c ∈ l ∧ c ∉ seen := by
  induction l generalizing seen with
  | nil => simp [dedupFirstAux]
  | cons d rest ih =>
    simp only [dedupFirstAux]
    split
    · rename_i hd
      rw [ih]
      constructor
      · rintro ⟨h1, h2⟩; exact ⟨List.mem_cons_of_mem _ h1, h2⟩
      · rintro ⟨h1, h2⟩
        rw [List.mem_cons] at h1
        rcases h1 with h1 | h1
        · subst h1; exact absurd hd h2
        · exact ⟨h1, h2⟩
    · rename_i hd
      rw [List.mem_cons, ih]
      constructor
      · rintro (h1 | ⟨h1, h2⟩)
        · subst h1; exact ⟨List.mem_cons_self _ _, hd⟩
        · refine ⟨List.mem_cons_of_mem _ h1, fun hc => h2 ?_⟩
          exact List.mem_cons_of_mem _ hc
      · rintro ⟨h1, h2⟩
        rw [List.mem_cons] at h1
        rcases h1 with h1 | h1
        · left; exact h1
        · by_cases hcd : c = d
          · left; exact hcd
          · right
            refine ⟨h1, fun hc => ?_⟩
            rw [List.mem_cons] at hc
            rcases hc with hc | hc
            · exact hcd hc
            · exact h2 hc

theorem dedupFirstAux_nodup (l seen : List String) :
    (dedupFirstAux seen l).Nodup := by
  induction l generalizing seen with
  | nil => simp [dedupFirstAux]
  | cons d rest ih =>
    simp only [dedupFirstAux]
    split
    · exact ih seen
    · refine List.Nodup.cons ?_ (ih (d :: seen))
      intro hd
      exact ((dedupFirstAux_mem rest (d :: seen) d).mp hd).2 (List.mem_cons_self _ _)

theorem dedupFirstAux_pairwise (l seen : List String) :
    (dedupFirstAux seen l).Pairwise
      (fun a b => List.indexOf a l < List.indexOf b l) := by
  induction l generalizing seen with
  | nil => simp [dedupFirstAux]
  | cons d rest ih =>
    simp only [dedupFirstAux]
    split
    · rename_i hd
      refine (ih seen).imp_of_mem ?_
      intro a b ha hb hab
      have ha2 := (dedupFirstAux_mem rest seen a).mp ha
      have hb2 := (dedupFirstAux_mem rest seen b).mp hb
      have had : a ≠ d := fun h => ha2.2 (h ▸ hd)
      have hbd : b ≠ d := fun h => hb2.2 (h ▸ hd)
      rw [List.indexOf_cons_ne _ (Ne.symm had), List.indexOf_cons_ne _ (Ne.symm hbd)]
      exact Nat.succ_lt_succ hab
    · rename_i hd
      refine List.Pairwise.cons ?_ ?_
      · intro b hb
        have hb2 := (dedupFirstAux_mem rest (d :: seen) b).mp hb
        have hbd : b ≠ d := fun h => hb2.2 (h ▸ List.mem_cons_self _ _)
        rw [List.indexOf_cons_self, List.indexOf_cons_ne _ (Ne.symm hbd)]
        exact Nat.succ_pos _
      · refine (ih (d :: seen)).imp_of_mem ?_
        intro a b ha hb hab
        have ha2 := (dedupFirstAux_mem rest (d :: seen) a).mp ha
        have hb2 := (dedupFirstAux_mem rest (d :: seen) b).mp hb
        have had : a ≠ d := fun h => ha2.2 (h ▸ List.mem_cons_self _ _)
        have hbd : b ≠ d := fun h => hb2.2 (h ▸ List.mem_cons_self _ _)
        rw [List.indexOf_cons_ne _ (Ne.symm had), List.indexOf_cons_ne _ (Ne.symm hbd)]
        exact Nat.succ_lt_succ hab

theorem dedupFirstAux_all_eq (l seen : List String) (x : String)
    (h : ∀ c ∈ l, c = x) (hx : x ∈ seen) : dedupFirstAux seen l = [] := by
  induction l with
  | nil => rfl
  | cons d rest ih =>
    have hd : d = x := h d (List.mem_cons_self _ _)
    simp only [dedupFirstAux, hd, if_pos hx]
    exact ih (fun c hc => h c (List.mem_cons_of_mem _ hc))

theorem dedupFirst_all_eq (l : List String) (x : String)
    (hne : l ≠ []) (h : ∀ c ∈ l, c = x) : dedupFirst l = [x] := by
  cases l with
  | nil => exact absurd rfl hne
  | cons d rest =>
    have hd : d = x := h d (List.mem_cons_self _ _)
    subst hd
    simp only [dedupFirst, dedupFirstAux, List.not_mem_nil, if_false]
    rw [dedupFirstAux_all_eq rest [d] d
      (fun c hc => h c (List.mem_cons_of_mem _ hc)) (List.mem_cons_self _ _)]

theorem classify_eq_dedup (validPat : String → Bool)
    (m : String → String → Bool) (msgs : List String) (bank : ErrorBank) :
    classify_errors_with_bank validPat m msgs bank =
      if (dedupFirst (msgs.map
          (fun i => (classifyMsg validPat m bank i).getD "UNCLASSIFIED"))).isEmpty
      then ["UNCLASSIFIED"]
      else dedupFirst (msgs.map
        (fun i => (classifyMsg validPat m bank i).getD "UNCLASSIFIED")) := rfl

/-- C2.  `classify_errors_with_bank` always returns a non-empty,
duplicate-free sequence of codes ordered by first occurrence among the
per-message codes, containing every per-message code; when the message
list is empty or no message matches any bank entry it returns exactly
`["UNCLASSIFIED"]`. -/
theorem classify_nonempty_nodup_first_order (validPat : String → Bool)
    (m : String → String → Bool) (msgs : List String) (bank : ErrorBank) :
    classify_errors_with_bank validPat m msgs bank ≠ [] ∧
    (classify_errors_with_bank validPat m msgs bank).Nodup ∧
    (classify_errors_with_bank validPat m msgs bank).Pairwise
      (fun a b =>
        List.indexOf a (msgs.map
          (fun i => (classifyMsg validPat m bank i).getD "UNCLASSIFIED")) <
        List.indexOf b (msgs.map
          (fun i => (classifyMsg validPat m bank i).getD "UNCLASSIFIED"))) ∧
    (∀ c ∈ msgs.map
        (fun i => (classifyMsg validPat m bank i).getD "UNCLASSIFIED"),
      c ∈ classify_errors_with_bank validPat m msgs bank) ∧
    ((msgs = [] ∨ ∀ i ∈ msgs, classifyMsg validPat m bank i = none) →
      classify_errors_with_bank validPat m msgs bank = ["UNCLASSIFIED"]) := by
  rw [classify_eq_dedup]
  set codes := msgs.map
    (fun i => (classifyMsg validPat m bank i).getD "UNCLASSIFIED") with hcodes
  refine ⟨?_, ?_, ?_, ?_, ?_⟩
  · split
    · simp
    · rename_i hout
      simpa using hout
  · split
    · simp
    · exact dedupFirstAux_nodup codes []
  · split
    · simp
    · exact dedupFirstAux_pairwise codes []
  · intro c hc
    have hmem : c ∈ dedupFirst codes :=
      (dedupFirstAux_mem codes [] c).mpr ⟨hc, List.not_mem_nil c⟩
    split
    · rename_i hout
      rw [List.isEmpty_iff] at hout
      rw [hout] at hmem
      simp at hmem
    · exact hmem
  · intro hcase
    rcases hcase with hcase | hcase
    · subst hcase
      rfl
    · have hall : ∀ c ∈ codes, c = "UNCLASSIFIED" := by
        intro c hc
        rw [hcodes] at hc
        rcases List.mem_map.mp hc with ⟨i, hi, hci⟩
        rw [hcase i hi] at hci
        exact hci.symm
      cases hmsgs : msgs with
      | nil =>
        subst hmsgs; rfl
      | cons i rest =>
        have hne : codes ≠ [] := by
          rw [hcodes, hmsgs]; simp
        rw [dedupFirst_all_eq codes "UNCLASSIFIED" hne hall]
        rfl

/-- C2 witness: at a concrete bank and message list whose messages all
fail to match, the classifier returns exactly `["UNCLASSIFIED"]`. -/
theorem classify_nonempty_nodup_first_order_witness :
    classify_errors_with_bank (fun _ => true) (fun _ _ => false) ["boom"]
      [("A", { category := "cat", regex := ["x"] })] = ["UNCLASSIFIED"] :=
  (classify_nonempty_nodup_first_order (fun _ => true) (fun _ _ => false)
    ["boom"] [("A", { category := "cat", regex := ["x"] })]).2.2.2.2
    (Or.inr (by decide))

theorem entryMatches_prune (validPat : String → Bool)
    (m : String → String → Bool) (pats : List String) (msg : String) :
    entryMatches validPat m pats msg =
      entryMatches (fun _ => true) m (pats.filter validPat) msg := by
  induction pats with
  | nil => rfl
  | cons p rest ih =>
    cases hv : validPat p with
    | true =>
      rw [show (p :: rest).filter validPat = p :: rest.filter validPat by
        simp [List.filter, hv]]
      simp only [entryMatches, re_search]
      rw [if_pos hv, if_pos trivial]
      dsimp only
      split
      · rfl
      · exact ih
    | false =>
      rw [show (p :: rest).filter validPat = rest.filter validPat by
        simp [List.filter, hv]]
      simp only [entryMatches, re_search]
      rw [if_neg (by simp [hv])]
      dsimp only
      exact ih

theorem classifyMsg_prune (validPat : String → Bool)
    (m : String → String → Bool) (bank : ErrorBank) (msg : String) :
    classifyMsg validPat m bank msg =
      classifyMsg (fun _ => true) m (pruneBank validPat bank) msg := by
  induction bank with
  | nil => rfl
  | cons p rest ih =>
    obtain ⟨code, entry⟩ := p
    simp only [classifyMsg, pruneBank, List.map_cons]
    rw [← entryMatches_prune]
    split
    · exact ih
    · split
      · rfl
      · exact ih

/-- C8.  Invalid regular-expression patterns are skipped silently:
classification over any bank coincides with classification over the
bank with every non-compiling pattern removed, for every message list
(so a malformed pattern never aborts classification — the embedded
`except re.error: continue` is the only handler the loop needs). -/
theorem classify_skips_invalid_patterns (validPat : String → Bool)
    (m : String → String → Bool) (msgs : List String) (bank : ErrorBank) :
    classify_errors_with_bank validPat m msgs bank =
      classify_errors_with_bank (fun _ => true) m msgs
        (pruneBank validPat bank) := by
  unfold classify_errors_with_bank
  have : msgs.map (fun i => (classifyMsg validPat m bank i).getD "UNCLASSIFIED") =
      msgs.map (fun i =>
        (classifyMsg (fun _ => true) m (pruneBank validPat bank) i).getD
          "UNCLASSIFIED") := by
    apply List.map_congr_left
    intro i _
    rw [classifyMsg_prune]
  rw [this]

/- ### The Student History Store: persistence -/

theorem dirChars_append (l1 l2 : List Char) (h : '/' ∉ l2) :
    dirChars (l1 ++ '/' :: l2) = l1 := by
  unfold dirChars
  rw [List.reverse_append, List.reverse_cons, List.append_assoc,
    List.singleton_append]
  rw [List.dropWhile_append]
  have h1 : List.dropWhile (fun c => c ≠ '/') l2.reverse = [] := by
    rw [List.dropWhile_eq_nil_iff]
    intro x hx
    simp only [ne_eq, decide_eq_true_eq]
    intro heq
    exact h (List.mem_reverse.mp (heq ▸ hx))
  rw [h1]
  simp only [List.isEmpty_nil, if_true]
  rw [List.dropWhile_cons]
  simp

theorem tmpPath_data (path base : String) :
    (tmpPath path base).data = (dirOf path).data ++ '/' :: base.data := by
  unfold tmpPath
  rw [String.data_append, String.data_append]
  simp

theorem dirOf_tmpPath (path base : String) (hbase : '/' ∉ base.data) :
    dirOf (tmpPath path base) = dirOf path := by
  unfold dirOf
  rw [tmpPath_data, dirChars_append _ _ hbase]
  rfl

theorem save_writes_target (dumps : Json → String) (fs : FS)
    (path base : String) (data : Json) :
    save_student_errors dumps base fs path data path = some (dumps data) := by
  simp only [save_student_errors, saveOps, applyOps, List.foldl_cons,
    List.foldl_nil, applyOp]
  simp

/-- C4.  `save_student_errors` is atomic: it writes the serialised
store to a temporary file inside the parent directory of the target
path and then renames it into place; executing any strict prefix of its
operation sequence (a crash before the rename) leaves the target-path
content unchanged, and executing all of it leaves exactly the
serialised store there. -/
theorem save_student_errors_atomic (dumps : Json → String) (fs : FS)
    (path base : String) (data : Json)
    (hfresh : tmpPath path base ≠ path) (hbase : '/' ∉ base.data) :
    (∀ k < (saveOps dumps path base data).length,
      applyOps ((saveOps dumps path base data).take k) fs path = fs path) ∧
    save_student_errors dumps base fs path data path = some (dumps data) ∧
    dirOf (tmpPath path base) = dirOf path := by
  refine ⟨?_, save_writes_target dumps fs path base data,
    dirOf_tmpPath path base hbase⟩
  intro k hk
  simp only [saveOps, List.length_cons, List.length_nil] at hk
  interval_cases k
  · rfl
  · simp only [saveOps, List.take_succ_cons, List.take_zero, applyOps,
      List.foldl_cons, List.foldl_nil, applyOp]
    rw [if_neg (Ne.symm hfresh)]

/-- C4 witness: a concrete save shows the final content and the
same-directory placement of the temporary file. -/
theorem save_student_errors_atomic_witness :
    save_student_errors (fun _ => "ser") "tmp1" (fun _ => none)
      "a/store.json" (Json.obj []) "a/store.json" = some "ser" ∧
    dirOf (tmpPath "a/store.json" "tmp1") = dirOf "a/store.json" :=
  (save_student_errors_atomic (fun _ => "ser") (fun _ => none)
    "a/store.json" "tmp1" (Json.obj []) (by decide) (by decide)).2

/-- C5.  Round trip: saving a student-history mapping (a JSON object)
and loading the same path yields the saved mapping, given the `json`
collaborator contract `loads (dumps data) = some data`. -/
theorem save_load_roundtrip (dumps : Json → String)
    (loads : String → Option Json) (fs : FS) (path base : String)
    (data : Json) (hround : loads (dumps data) = some data)
    (hobj : data.isObj = true) :
    load_student_errors loads (save_student_errors dumps base fs path data)
      path = data := by
  unfold load_student_errors
  rw [save_writes_target dumps fs path base data]
  simp [hround, hobj]

/-- C5 witness: a concrete store round-trips through a concrete
serialiser pair. -/
theorem save_load_roundtrip_witness :
    load_student_errors
      (fun s => if s = "ser" then some (Json.obj [("Alex Kim", Json.num 1)])
        else none)
      (save_student_errors (fun _ => "ser") "tmp1" (fun _ => none)
        "a/store.json" (Json.obj [("Alex Kim", Json.num 1)]))
      "a/store.json" = Json.obj [("Alex Kim", Json.num 1)] :=
  save_load_roundtrip (fun _ => "ser")
    (fun s => if s = "ser" then some (Json.obj [("Alex Kim", Json.num 1)])
      else none)
    (fun _ => none) "a/store.json" "tmp1"
    (Json.obj [("Alex Kim", Json.num 1)]) (by simp) rfl

/-- C10.  `load_student_errors` returns the empty mapping when the file
is absent, when its content is malformed JSON, and also when it is
valid JSON whose top-level value is not an object; it never raises. -/
theorem load_student_errors_defaults (loads : String → Option Json)
    (fs : FS) (path : String) :
    (fs path = none → load_student_errors loads fs path = Json.obj []) ∧
    (∀ text, fs path = some text → loads text = none →
      load_student_errors loads fs path = Json.obj []) ∧
    (∀ text j, fs path = some text → loads text = some j →
      j.isObj = false → load_student_errors loads fs path = Json.obj []) := by
  refine ⟨?_, ?_, ?_⟩
  · intro h
    simp [load_student_errors, h]
  · intro text h1 h2
    simp [load_student_errors, h1, h2]
  · intro text j h1 h2 h3
    simp [load_student_errors, h1, h2, h3]

/-- C10 witness: a file containing a valid JSON array loads as the
empty mapping. -/
theorem load_student_errors_defaults_witness :
    load_student_errors (fun _ => some (Json.arr [Json.num 1]))
      (fun _ => some "[1]") "p" = Json.obj [] :=
  (load_student_errors_defaults (fun _ => some (Json.arr [Json.num 1]))
    (fun _ => some "[1]") "p").2.2 "[1]" (Json.arr [Json.num 1]) rfl rfl rfl

/- ### The Student History Store: `record_student_submission` -/

theorem alistGet_mem {α : Type} (l : List (String × α)) (k : String)
    (v : α) (h : alistGet l k = some v) : (k, v) ∈ l := by
  induction l with
  | nil => simp [alistGet] at h
  | cons p rest ih =>
    obtain ⟨k2, w⟩ := p
    simp only [alistGet] at h
    split at h
    · rename_i hk
      subst hk
      rw [Option.some_inj] at h
      subst h
      exact List.mem_cons_self _ _
    · exact List.mem_cons_of_mem _ (ih h)

theorem alistGet_setStudent_self (totals : StudentStore) (name : String)
    (v : StudentRec) : alistGet (setStudent totals name v) name = some v := by
  induction totals with
  | nil => simp [setStudent, alistGet]
  | cons p rest ih =>
    obtain ⟨k, w⟩ := p
    simp only [setStudent]
    split
    · rename_i hk
      simp [alistGet, hk]
    · rename_i hk
      simp [alistGet, hk, ih]

theorem mem_setStudent (totals : StudentStore) (name : String)
    (v : StudentRec) :
    ∀ p ∈ setStudent totals name v, p ∈ totals ∨ p = (name, v) := by
  induction totals with
  | nil => simp [setStudent]
  | cons q rest ih =>
    obtain ⟨k, w⟩ := q
    intro p hp
    simp only [setStudent] at hp
    split at hp
    · rename_i hk
      subst hk
      rw [List.mem_cons] at hp
      rcases hp with hp | hp
      · right; exact hp
      · left; exact List.mem_cons_of_mem _ hp
    · rw [List.mem_cons] at hp
      rcases hp with hp | hp
      · left; exact hp ▸ List.mem_cons_self _ _
      · rcases ih p hp with h | h
        · left; exact List.mem_cons_of_mem _ h
        · right; exact h

theorem record_count_succ (totals : StudentStore) (full_name sid : String)
    (codes : List String) (fb : Option String) :
    storeCount (record_student_submission totals full_name sid codes fb)
      full_name = storeCount totals full_name + 1 := by
  unfold record_student_submission storeCount
  rw [alistGet_setStudent_self]
  cases h : alistGet totals full_name <;> simp [h]

theorem record_histlen_succ (totals : StudentStore) (full_name sid : String)
    (codes : List String) (fb : Option String) :
    storeHistLen (record_student_submission totals full_name sid codes fb)
      full_name = storeHistLen totals full_name + 1 := by
  unfold record_student_submission storeHistLen
  rw [alistGet_setStudent_self]
  cases h : alistGet totals full_name <;> simp [h]

theorem record_keeps_invariant (totals : StudentStore)
    (full_name sid : String) (codes : List String) (fb : Option String)
    (hinv : ∀ p ∈ totals, (p.2).feedback_count = (p.2).history.length) :
    ∀ p ∈ record_student_submission totals full_name sid codes fb,
      (p.2).feedback_count = (p.2).history.length := by
  intro p hp
  unfold record_student_submission at hp
  rcases mem_setStudent _ _ _ p hp with h | h
  · exact hinv p h
  · subst h
    cases hbase : alistGet totals full_name with
    | none => simp [hbase]
    | some r =>
      have := hinv (full_name, r) (alistGet_mem totals full_name r hbase)
      simp only [hbase, Option.getD_some]
      simp at this
      simp [this]

theorem recordN_count (totals : StudentStore) (full_name : String)
    (subs : List (String × List String × Option String)) :
    storeCount (recordN totals full_name subs) full_name =
      storeCount totals full_name + subs.length ∧
    storeHistLen (recordN totals full_name subs) full_name =
      storeHistLen totals full_name + subs.length := by
  induction subs generalizing totals with
  | nil => simp [recordN]
  | cons s rest ih =>
    obtain ⟨sid, codes, fb⟩ := s
    have hstep := ih (record_student_submission totals full_name sid codes fb)
    simp only [recordN, List.foldl_cons] at hstep ⊢
    rw [hstep.1, hstep.2, record_count_succ, record_histlen_succ]
    constructor <;> simp only [List.length_cons] <;> omega

theorem recordN_keeps_invariant (totals : StudentStore) (full_name : String)
    (subs : List (String × List String × Option String))
    (hinv : ∀ p ∈ totals, (p.2).feedback_count = (p.2).history.length) :
    ∀ p ∈ recordN totals full_name subs,
      (p.2).feedback_count = (p.2).history.length := by
  induction subs generalizing totals with
  | nil => exact hinv
  | cons s rest ih =>
    obtain ⟨sid, codes, fb⟩ := s
    simp only [recordN, List.foldl_cons]
    exact ih _ (record_keeps_invariant totals full_name sid codes fb hinv)

/-- C3.  `record_student_submission` creates an absent record with the
defaults (`feedback_count = 0`, `history = []`) before updating it, the
invariant `feedback_count = length history` is preserved by every
sequence of record calls, and N calls for the same student increase
both `feedback_count` and the history length by exactly N over their
pre-existing values. -/
theorem record_student_submission_monotonic (totals : StudentStore)
    (full_name : String)
    (subs : List (String × List String × Option String))
    (hinv : ∀ p ∈ totals, (p.2).feedback_count = (p.2).history.length) :
    (∀ sid codes fb, alistGet totals full_name = none →
      alistGet (record_student_submission totals full_name sid codes fb)
          full_name =
        some { full_name := full_name, feedback_count := 0 + 1,
               history := [] ++ [HistoryEntry.mk sid codes (fb.getD "")] }) ∧
    (∀ p ∈ recordN totals full_name subs,
      (p.2).feedback_count = (p.2).history.length) ∧
    storeCount (recordN totals full_name subs) full_name =
      storeCount totals full_name + subs.length ∧
    storeHistLen (recordN totals full_name subs) full_name =
      storeHistLen totals full_name + subs.length := by
  refine ⟨?_, recordN_keeps_invariant totals full_name subs hinv,
    (recordN_count totals full_name subs).1,
    (recordN_count totals full_name subs).2⟩
  intro sid codes fb habs
  unfold record_student_submission
  rw [habs]
  rw [alistGet_setStudent_self]
  rfl

/-- C3 witness: two record calls for a fresh student leave count 2 and
history length 2, and the first call creates the record. -/
theorem record_student_submission_monotonic_witness :
    (alistGet (record_student_submission [] "Alex Kim" "s1" ["E1"] none)
        "Alex Kim" =
      some { full_name := "Alex Kim", feedback_count := 0 + 1,
             history := [] ++
               [HistoryEntry.mk "s1" ["E1"] ((none : Option String).getD "")] }) ∧
    storeCount (recordN [] "Alex Kim"
      [("s1", ["E1"], none), ("s2", ["E1"], some "fb")]) "Alex Kim" =
      storeCount [] "Alex Kim" + 2 :=
  ⟨(record_student_submission_monotonic [] "Alex Kim" [] (by simp)).1
      "s1" ["E1"] none rfl,
    (record_student_submission_monotonic [] "Alex Kim"
      [("s1", ["E1"], none), ("s2", ["E1"], some "fb")] (by simp)).2.2.1⟩

/- ### The History Summarizer -/

theorem sortStrings_sorted (l : List String) :
    (sortStrings l).Sorted (· ≤ ·) := by
  have h := @List.sorted_mergeSort String (fun a b : String => decide (a ≤ b))
    (fun a b c hab hbc => by
      rw [decide_eq_true_eq] at *
      exact le_trans hab hbc)
    (fun a b => by
      rcases le_total a b with h | h
      · simp [h]
      · simp [h])
    l
  refine h.imp ?_
  intro a b hab
  rwa [decide_eq_true_eq] at hab

theorem summarize_history_overlap_eq (s : StudentRec)
    (now_codes : List String) (top_k window : Nat)
    (hne : s.history.isEmpty = false) :
    (summarize_history (some s) now_codes top_k window).2 =
      sortStrings ((dedupFirst now_codes).filter
        (fun c => isFrequent s.history window c)) := by
  simp only [summarize_history]
  rw [if_neg (by simp [hne])]

theorem summarize_history_empty (s : StudentRec)
    (now_codes : List String) (top_k window : Nat)
    (hempty : s.history = []) :
    summarize_history (some s) now_codes top_k window =
      ("(no prior feedback)", []) := by
  simp only [summarize_history]
  rw [if_pos (by simp [hempty])]

/-- C6.  The `overlap_codes` component of `summarize_history` is a
subset of `now_codes` and of the frequent-code set (lifetime count at
least 2 or recent deduplicated count at least 2), it is sorted, and an
absent student or an empty history yields exactly
`("(no prior feedback)", [])`. -/
theorem summarize_history_overlap_subset (student : Option StudentRec)
    (now_codes : List String) (top_k window : Nat) :
    (∀ c ∈ (summarize_history student now_codes top_k window).2,
      c ∈ now_codes) ∧
    (∀ c ∈ (summarize_history student now_codes top_k window).2,
      ∃ s, student = some s ∧ isFrequent s.history window c = true) ∧
    (summarize_history student now_codes top_k window).2.Sorted (· ≤ ·) ∧
    ((student = none ∨ ∃ s, student = some s ∧ s.history = []) →
      summarize_history student now_codes top_k window =
        ("(no prior feedback)", [])) := by
  cases student with
  | none =>
    refine ⟨?_, ?_, ?_, ?_⟩ <;> simp [summarize_history, List.Sorted]
  | some s =>
    cases hne : s.history.isEmpty with
    | true =>
      have hempty : s.history = [] := List.isEmpty_iff.mp hne
      rw [summarize_history_empty s now_codes top_k window hempty]
      refine ⟨by simp, by simp, by simp [List.Sorted], fun _ => rfl⟩
    | false =>
      rw [summarize_history_overlap_eq s now_codes top_k window hne]
      refine ⟨?_, ?_, sortStrings_sorted _, ?_⟩
      · intro c hc
        rw [sortStrings, List.mem_mergeSort, List.mem_filter] at hc
        exact ((dedupFirstAux_mem now_codes [] c).mp hc.1).1
      · intro c hc
        rw [sortStrings, List.mem_mergeSort, List.mem_filter] at hc
        exact ⟨s, rfl, hc.2⟩
      · rintro (h | ⟨s2, hs2, hempty⟩)
        · exact absurd h (by simp)
        · rw [Option.some_inj] at hs2
          subst hs2
          rw [hempty] at hne
          simp at hne

/-- C6 witness: the absent student yields the empty summary pair. -/
theorem summarize_history_overlap_subset_witness :
    summarize_history none ["TYPE_NONE"] 3 5 = ("(no prior feedback)", []) :=
  (summarize_history_overlap_subset none ["TYPE_NONE"] 3 5).2.2.2
    (Or.inl rfl)

/- ### The student-code excerpt -/

theorem joinSep_length (sep : Char) (ps : List (List Char)) :
    (joinSep sep ps).length =
      (ps.map List.length).sum + (ps.length - 1) := by
  induction ps using joinSep.induct sep with
  | case1 => simp [joinSep]
  | case2 p => simp [joinSep]
  | case3 p q rest ih =>
    simp only [joinSep, List.length_append, List.length_cons, List.map_cons,
      List.sum_cons] at ih ⊢
    omega

theorem pyStrip_length_le (l : List Char) :
    (pyStrip l).length ≤ l.length := by
  unfold pyStrip
  rw [List.length_reverse]
  calc ((l.dropWhile pyIsSpace).reverse.dropWhile pyIsSpace).length
      ≤ (l.dropWhile pyIsSpace).reverse.length :=
        (List.dropWhile_sublist pyIsSpace).length_le
    _ = (l.dropWhile pyIsSpace).length := List.length_reverse _
    _ ≤ l.length := (List.dropWhile_sublist pyIsSpace).length_le

theorem excerptLoop_bound (limit : Nat) (files : List (String × String))
    (total : Nat) (pieces : List (List Char)) (htot : total ≤ limit) :
    ((excerptLoop limit files total pieces).map List.length).sum ≤
      (pieces.map List.length).sum + (limit - total) ∧
    (excerptLoop limit files total pieces).length ≤
      pieces.length + files.length := by
  induction files generalizing total pieces with
  | nil =>
    simp only [excerptLoop, List.map_reverse, List.sum_reverse,
      List.length_reverse]
    omega
  | cons f rest ih =>
    obtain ⟨name, code⟩ := f
    simp only [excerptLoop]
    set chunk0 := ("# FILE: " ++ name ++ "\n" ++ code).data with hchunk0
    by_cases hcut : limit < total + chunk0.length
    · rw [if_pos hcut]
      have hlen : (chunk0.take (limit - total)).length = limit - total := by
        rw [List.length_take]
        omega
      rw [if_pos (by omega)]
      simp only [List.map_reverse, List.sum_reverse, List.length_reverse,
        List.map_cons, List.sum_cons, List.length_cons, hlen]
      constructor <;> omega
    · rw [if_neg hcut]
      push_neg at hcut
      by_cases hbreak : limit ≤ total + chunk0.length
      · rw [if_pos hbreak]
        simp only [List.map_reverse, List.sum_reverse, List.length_reverse,
          List.map_cons, List.sum_cons, List.length_cons]
        constructor <;> omega
      · rw [if_neg hbreak]
        push_neg at hbreak
        have hrec := ih (total + chunk0.length) (chunk0 :: pieces) (by omega)
        simp only [List.map_cons, List.sum_cons, List.length_cons] at hrec
        constructor
        · calc ((excerptLoop limit rest (total + chunk0.length)
                (chunk0 :: pieces)).map List.length).sum
              ≤ chunk0.length + (pieces.map List.length).sum +
                (limit - (total + chunk0.length)) := hrec.1
            _ ≤ (pieces.map List.length).sum + (limit - total) := by omega
        · calc (excerptLoop limit rest (total + chunk0.length)
                (chunk0 :: pieces)).length
              ≤ pieces.length + 1 + rest.length := hrec.2
            _ ≤ pieces.length + (rest.length + 1) := by omega

/-- C9 counterexample: with two empty `.py` files and limit 14 the
excerpt has length 15 — the newline separators the join inserts between
per-file chunks are not counted against the limit, so the output can
exceed it. -/
theorem read_student_code_excerpt_exceeds_limit :
    ¬ ((read_student_code_excerpt
        (some [("a.py", ""), ("b.py", "")]) 14).length ≤ 14) := by
  decide

/-- C9 (amended).  The excerpt length is at most
`limit + (number of files - 1)` — the loop bounds the total chunk
length by `limit`, but the newline separators between chunks are
uncounted; an absent submission directory (`None` or nonexistent)
yields the empty string and no error. -/
theorem read_student_code_excerpt_bounded (files : List (String × String))
    (limit : Nat) :
    (read_student_code_excerpt (some files) limit).length ≤
      limit + (files.length - 1) ∧
    read_student_code_excerpt none limit = "" := by
  refine ⟨?_, rfl⟩
  have hloop := excerptLoop_bound limit files 0 [] (Nat.zero_le _)
  simp only [List.map_nil, List.sum_nil, List.length_nil, Nat.zero_add,
    Nat.sub_zero] at hloop
  have h1 : (read_student_code_excerpt (some files) limit).length =
      (pyStrip (joinSep '\n' (excerptLoop limit files 0 []))).length := rfl
  have h2 := pyStrip_length_le (joinSep '\n' (excerptLoop limit files 0 []))
  have h3 := joinSep_length '\n' (excerptLoop limit files 0 [])
  omega

/- ### The Feedback Orchestrator -/

/-- C1.  When the text-generation response of a submission is not
parsable as JSON, the loop enters its `except` handler, which reads the
local `msg` without assigning it: on the first submission of a batch
this raises `UnboundLocalError` and aborts the whole batch (so the
History Store is never saved), and even when `msg` happens to be bound
from an earlier iteration the handler never records the submission into
the History Store. -/
theorem parse_failure_aborts_batch (validPat : String → Bool)
    (m : String → String → Bool) (bank : ErrorBank)
    (nameMap : String → Option String) (loads : String → Option Json)
    (response : String → String) (totals0 : StudentStore)
    (sub : SubmissionInput)
    (hparse : loads (response sub.submission_id) = none) :
    runBatch validPat m bank nameMap loads response totals0 [sub] =
      Except.error PyError.unboundLocal ∧
    (∀ st msg2, st.msgVar = some msg2 →
      (processSubmission validPat m bank nameMap loads response st sub).map
        (fun st2 => st2.student_totals) = Except.ok st.student_totals) := by
  constructor
  · simp [runBatch, runBatch.go, processSubmission, extractMsg, hparse]
  · intro st msg2 hmsg
    simp [processSubmission, extractMsg, hparse, hmsg, Except.map]

/-- C1 witness: a one-submission batch whose response is `"not json"`
aborts with `UnboundLocalError`. -/
theorem parse_failure_aborts_batch_witness :
    runBatch (fun _ => true) (fun _ _ => false) [] (fun _ => none)
      (fun _ => none) (fun _ => "not json") []
      [⟨"submission_1", ["Test Failed: boom"]⟩] =
      Except.error PyError.unboundLocal :=
  (parse_failure_aborts_batch (fun _ => true) (fun _ _ => false) []
    (fun _ => none) (fun _ => none) (fun _ => "not json") []
    ⟨"submission_1", ["Test Failed: boom"]⟩ rfl).1

/-- C7 witness: at a concrete two-line message and limit, the condensed
output respects the bound, and empty input yields the empty string. -/
theorem condense_bounded_single_line_witness :
    (condense "  Line one  \n\n  line two  " 10).length ≤ 10 ∧
    condense "" 10 = "" :=
  ⟨(condense_bounded_single_line "  Line one  \n\n  line two  " 10).1,
    (condense_bounded_single_line "  Line one  \n\n  line two  " 10).2.2⟩

/-- C9 witness (amended claim): one file and limit 20 give an excerpt
of length at most 20, and an absent directory gives the empty
string. -/
theorem read_student_code_excerpt_bounded_witness :
    (read_student_code_excerpt (some [("a.py", "x = 1")]) 20).length ≤
      20 + ([("a.py", "x = 1")].length - 1) ∧
    read_student_code_excerpt none 20 = "" :=
  read_student_code_excerpt_bounded [("a.py", "x = 1")] 20
